import Mathlib

/-!
Verification development for the ArchiNotes freehand vector annotation
engine.  The engine exists in two parallel implementations in the source:
the standalone image-markup dialog (`DrawingCanvas.tsx`) and the embedded
project whiteboard (`MeetingView.tsx`); an older revision of the whiteboard
is also present.  This file embeds the data model and the operations of
those implementations as pure Lean functions and proves the specified
properties about them.

Conventions of the embedding:
* JavaScript numbers are modelled as rationals (`ℚ`); none of the verified
  operations rounds, so exact arithmetic is faithful for the properties at
  stake.
* The source compares `Math.sqrt(dx**2 + dy**2) < r`; since both sides are
  nonnegative and squaring is monotone this is embedded as the equivalent
  `dx^2 + dy^2 < r^2` over `ℚ`.
* React `useState` cells become fields of an explicit state record, and
  each event handler becomes a state-transformer function.
-/

/-- A point `{x, y}` in canvas coordinates. -/
structure Point where
  x : ℚ
  y : ℚ
deriving DecidableEq, Repr

/-- The `MarkupPath` record of `constants.tsx`:
`{points, color, width, isHighlighter}`. -/
structure MarkupPath where
  points : List Point
  color : String
  width : ℚ
  isHighlighter : Bool
deriving DecidableEq, Repr

/-- The `ToolType` enum of `constants.tsx`. -/
inductive ToolType where
  | marker
  | highlighter
  | eraser
deriving DecidableEq, Repr

/-- Squared Euclidean distance between two points.  The source computes
`Math.sqrt((pt1.x-pt2.x)**2 + (pt1.y-pt2.y)**2)` and compares it with a
radius `r`; `sqrt d < r ↔ d < r^2` for nonnegative `d`, `r`, so all
comparisons below are performed on the square. -/
def distSq (p q : Point) : ℚ :=
  (p.x - q.x) ^ 2 + (p.y - q.y) ^ 2

/-- The geometry of a mounted `<canvas>` element: the `width`/`height`
backing-resolution attributes and its `getBoundingClientRect()` box. -/
structure CanvasElem where
  width : ℚ
  height : ℚ
  rectLeft : ℚ
  rectTop : ℚ
  rectWidth : ℚ
  rectHeight : ℚ
deriving DecidableEq, Repr

namespace DrawingCanvas

/-- The `useState` cells of `DrawingCanvas.tsx` that the annotation engine
reads and writes.  `redoStack` has type `MarkupPath[][]` in the source:
a list of batches of strokes. -/
structure CanvasState where
  paths : List MarkupPath
  redoStack : List (List MarkupPath)
  isDrawing : Bool
  currentPath : List Point
  tool : ToolType
  color : String
deriving DecidableEq, Repr

/-- Mapper `getCoordinates` of `DrawingCanvas.tsx`: `null` canvas returns the
origin; otherwise the client position minus the bounding-rect corner,
with no scale factor applied. -/
def getCoordinates (canvas : Option CanvasElem) (client : Point) : Point :=
  match canvas with
  | none => ⟨0, 0⟩
  | some c => ⟨client.x - c.rectLeft, client.y - c.rectTop⟩

/-- Handler `startDrawing`: sets `isDrawing` and starts `currentPath` at the mapped
down-coordinate. -/
def startDrawing (st : CanvasState) (coords : Point) : CanvasState :=
  { st with isDrawing := true, currentPath := [coords] }

/-- Handler `draw` (the pointer-move handler): if a capture is in progress, appends
the mapped coordinate to `currentPath`. -/
def draw (st : CanvasState) (coords : Point) : CanvasState :=
  if st.isDrawing then { st with currentPath := st.currentPath ++ [coords] }
  else st

/-- Predicate `isPathIntersecting` of `DrawingCanvas.tsx`: true when any point of
`p1` lies strictly within distance 15 of any point of `p2`. -/
def isPathIntersecting (p1 p2 : List Point) : Bool :=
  p1.any fun pt1 => p2.any fun pt2 => decide (distSq pt1 pt2 < 15 ^ 2)

/-- Handler `endDrawing`: on pointer-up during a capture, either hands the captured
path to the eraser filter or commits it as a new `MarkupPath`; in both
cases clears `redoStack` and `currentPath`. -/
def endDrawing (st : CanvasState) : CanvasState :=
  if st.isDrawing = false then st
  else if st.tool = ToolType.eraser then
    { st with
      isDrawing := false
      paths := st.paths.filter fun p => !(isPathIntersecting p.points st.currentPath)
      redoStack := []
      currentPath := [] }
  else
    { st with
      isDrawing := false
      paths := st.paths ++
        [{ points := st.currentPath
           color := st.color
           width := if st.tool = ToolType.highlighter then 20 else 4
           isHighlighter := st.tool = ToolType.highlighter }]
      redoStack := []
      currentPath := [] }

/-- Handler `handleUndo`: no-op when `paths` is empty; otherwise moves the last
committed stroke to the front of `redoStack` (as a singleton batch). -/
def handleUndo (st : CanvasState) : CanvasState :=
  match st.paths.getLast? with
  | none => st
  | some last =>
    { st with
      paths := st.paths.dropLast
      redoStack := [last] :: st.redoStack }

/-- Handler `handleRedo`: no-op when `redoStack` is empty; otherwise appends the
front batch back onto `paths` and drops it from `redoStack`. -/
def handleRedo (st : CanvasState) : CanvasState :=
  match st.redoStack with
  | [] => st
  | next :: rest => { st with paths := st.paths ++ next, redoStack := rest }

/-- A full user gesture on the drawing canvas: pick a tool and a color,
pointer-down at `p0`, pointer-moves through `rest`, pointer-up. -/
def applyGesture (st : CanvasState) (tool : ToolType) (color : String)
    (p0 : Point) (rest : List Point) : CanvasState :=
  endDrawing (rest.foldl draw (startDrawing { st with tool := tool, color := color } p0))

/-- User-level operations on the canvas history: a complete draw/erase
gesture (a commit), an undo click, or a redo click. -/
inductive Op where
  | gesture (tool : ToolType) (color : String) (p0 : Point) (rest : List Point)
  | undo
  | redo
deriving DecidableEq, Repr

/-- Interpret one user-level operation. -/
def applyOp (st : CanvasState) : Op → CanvasState
  | .gesture t c p0 rest => applyGesture st t c p0 rest
  | .undo => handleUndo st
  | .redo => handleRedo st

/-- Interpret a sequence of user-level operations, left to right. -/
def applyOps (st : CanvasState) (l : List Op) : CanvasState :=
  l.foldl applyOp st

/-- The initial state of `DrawingCanvas` when opened with no pre-existing
markup: empty history, marker tool, default red. -/
def initState : CanvasState :=
  { paths := []
    redoStack := []
    isDrawing := false
    currentPath := []
    tool := ToolType.marker
    color := "#ef4444" }

/-- Iterates `handleUndo` `n` times. -/
def undoN : ℕ → CanvasState → CanvasState
  | 0, st => st
  | n + 1, st => undoN n (handleUndo st)

/-- A draw/erase gesture as data: tool, color, pointer-down point and the
subsequent pointer-move points. -/
structure Gesture where
  tool : ToolType
  color : String
  p0 : Point
  rest : List Point
deriving DecidableEq, Repr

/-- Apply a sequence of full gestures, left to right. -/
def applyGestures (st : CanvasState) (gs : List Gesture) : CanvasState :=
  gs.foldl (fun s g => applyGesture s g.tool g.color g.p0 g.rest) st

end DrawingCanvas

namespace MeetingView

/-- The whiteboard-related state of `MeetingView.tsx`: the persisted
`meeting.whiteboardMarkup` list together with the component's `useState`
cells.  Here `redoStack` has type `MarkupPath[]`: a flat list of strokes. -/
structure WhiteboardState where
  whiteboardMarkup : List MarkupPath
  redoStack : List MarkupPath
  isDrawingWhiteboard : Bool
  currentWhiteboardPath : List Point
  whiteboardTool : ToolType
  whiteboardColor : String
deriving DecidableEq, Repr

/-- Mapper `getCanvasCoords` of `MeetingView.tsx`: `null` canvas returns the
origin; otherwise the offset from the bounding rect scaled per axis by
`canvas.width / rect.width` and `canvas.height / rect.height`. -/
def getCanvasCoords (canvas : Option CanvasElem) (client : Point) : Point :=
  match canvas with
  | none => ⟨0, 0⟩
  | some c =>
    ⟨(client.x - c.rectLeft) * (c.width / c.rectWidth),
     (client.y - c.rectTop) * (c.height / c.rectHeight)⟩

/-- The eraser predicate inlined in `endWhiteboardDrawing`: some point of
the stroke lies strictly within distance 20 of some captured point. -/
def hitByEraser (path : MarkupPath) (cur : List Point) : Bool :=
  path.points.any fun pt1 => cur.any fun pt2 => decide (distSq pt1 pt2 < 20 ^ 2)

/-- Handler `startWhiteboardDrawing`. -/
def startWhiteboardDrawing (st : WhiteboardState) (coords : Point) : WhiteboardState :=
  { st with isDrawingWhiteboard := true, currentWhiteboardPath := [coords] }

/-- The whiteboard pointer-move handler: appends the mapped coordinate
while a capture is in progress. -/
def moveWhiteboardDrawing (st : WhiteboardState) (coords : Point) : WhiteboardState :=
  if st.isDrawingWhiteboard then
    { st with currentWhiteboardPath := st.currentWhiteboardPath ++ [coords] }
  else st

/-- Handler `endWhiteboardDrawing` of `MeetingView.tsx`: filter out hit strokes
(eraser) or append the captured stroke; clears `redoStack` either way. -/
def endWhiteboardDrawing (st : WhiteboardState) : WhiteboardState :=
  if st.isDrawingWhiteboard = false then st
  else if st.whiteboardTool = ToolType.eraser then
    { st with
      isDrawingWhiteboard := false
      whiteboardMarkup := st.whiteboardMarkup.filter fun path =>
        !(hitByEraser path st.currentWhiteboardPath)
      redoStack := []
      currentWhiteboardPath := [] }
  else
    { st with
      isDrawingWhiteboard := false
      whiteboardMarkup := st.whiteboardMarkup ++
        [{ points := st.currentWhiteboardPath
           color := st.whiteboardColor
           width := if st.whiteboardTool = ToolType.highlighter then 30 else 4
           isHighlighter := st.whiteboardTool = ToolType.highlighter }]
      redoStack := []
      currentWhiteboardPath := [] }

/-- Handler `undoWhiteboard`: no-op on empty markup; otherwise appends the last
committed stroke to the END of `redoStack` and drops it from the markup. -/
def undoWhiteboard (st : WhiteboardState) : WhiteboardState :=
  match st.whiteboardMarkup.getLast? with
  | none => st
  | some last =>
    { st with
      whiteboardMarkup := st.whiteboardMarkup.dropLast
      redoStack := st.redoStack ++ [last] }

/-- Handler `redoWhiteboard`: no-op on empty `redoStack`; otherwise re-appends the
LAST element of `redoStack` to the markup and drops it. -/
def redoWhiteboard (st : WhiteboardState) : WhiteboardState :=
  match st.redoStack.getLast? with
  | none => st
  | some next =>
    { st with
      whiteboardMarkup := st.whiteboardMarkup ++ [next]
      redoStack := st.redoStack.dropLast }

end MeetingView

namespace LegacyMeetingView

/-- The eraser predicate of the older `MeetingView` revision
(`src/unnamed/part_000`), radius 30. -/
def hitByEraser (path : MarkupPath) (cur : List Point) : Bool :=
  path.points.any fun pt1 => cur.any fun pt2 => decide (distSq pt1 pt2 < 30 ^ 2)

/-- The eraser branch of the older revision's `endWhiteboardDrawing`. -/
def eraseMarkup (markup : List MarkupPath) (cur : List Point) : List MarkupPath :=
  markup.filter fun path => !(hitByEraser path cur)

end LegacyMeetingView

/-! ### Concrete strokes and states used in counterexamples and witnesses -/

/-- A red single-point stroke. -/
def sA : MarkupPath := ⟨[⟨0, 0⟩], "#ef4444", 4, false⟩

/-- A blue single-point stroke, distinct from `sA`. -/
def sB : MarkupPath := ⟨[⟨1, 1⟩], "#3b82f6", 4, false⟩

/-- Whiteboard state with committed `[sA]` and redo buffer `[sB]` — the
state reached by committing `sA`, committing `sB`, then undoing once. -/
def mvUndoSt : MeetingView.WhiteboardState :=
  ⟨[sA], [sB], false, [], ToolType.marker, "#ef4444"⟩

/-- Drawing-canvas state with two committed strokes and one redo batch. -/
def dcUndoSt : DrawingCanvas.CanvasState :=
  ⟨[sA, sB], [[sA]], false, [], ToolType.marker, "#ef4444"⟩

/-- Drawing-canvas state with empty committed list but a pending redo
batch — the state reached by committing `sB` and undoing it. -/
def dcEmptySt : DrawingCanvas.CanvasState :=
  ⟨[], [[sB]], false, [], ToolType.marker, "#ef4444"⟩

/-! ### C1 -/

/-- C1 (amended): in the image-markup engine, `undo` on a non-empty
committed list moves its last stroke to the front of the redo buffer and
`redo` removes the front buffer entry and appends it to the committed
list; in the whiteboard engine the roles of front and end are swapped —
`undo` appends the undone stroke to the END of `redoBuffer`
(most-recently-undone last) and `redo` removes the END entry and appends
it to the committed list.  Both disciplines are LIFO. -/
theorem undo_redo_stack_discipline :
    (∀ (st : DrawingCanvas.CanvasState) (h : st.paths ≠ []),
      DrawingCanvas.handleUndo st =
        { st with paths := st.paths.dropLast
                  redoStack := [st.paths.getLast h] :: st.redoStack }) ∧
    (∀ (st : DrawingCanvas.CanvasState) (next : List MarkupPath)
        (rest : List (List MarkupPath)), st.redoStack = next :: rest →
      DrawingCanvas.handleRedo st =
        { st with paths := st.paths ++ next, redoStack := rest }) ∧
    (∀ (st : MeetingView.WhiteboardState) (h : st.whiteboardMarkup ≠ []),
      MeetingView.undoWhiteboard st =
        { st with whiteboardMarkup := st.whiteboardMarkup.dropLast
                  redoStack := st.redoStack ++ [st.whiteboardMarkup.getLast h] }) ∧
    (∀ (st : MeetingView.WhiteboardState) (h : st.redoStack ≠ []),
      MeetingView.redoWhiteboard st =
        { st with whiteboardMarkup := st.whiteboardMarkup ++ [st.redoStack.getLast h]
                  redoStack := st.redoStack.dropLast }) := by
  refine ⟨?_, ?_, ?_, ?_⟩
  · intro st h
    unfold DrawingCanvas.handleUndo
    rw [List.getLast?_eq_getLast_of_ne_nil h]
  · intro st next rest hr
    simp [DrawingCanvas.handleRedo, hr]
  · intro st h
    unfold MeetingView.undoWhiteboard
    rw [List.getLast?_eq_getLast_of_ne_nil h]
  · intro st h
    unfold MeetingView.redoWhiteboard
    rw [List.getLast?_eq_getLast_of_ne_nil h]

/-- C1 counterexample: in the whiteboard engine, undoing from committed
`[sA]` with redo buffer `[sB]` yields the buffer `[sB, sA]` — the
just-undone stroke `sA` sits at the END, not at the front as the claim
states (most-recently-undone first would be `[sA, sB]`). -/
theorem undo_redo_stack_discipline_cex :
    (MeetingView.undoWhiteboard mvUndoSt).redoStack = [sB, sA] ∧
    ([sB, sA] : List MarkupPath) ≠ [sA, sB] := by
  constructor
  · rfl
  · decide

/-- Witness for C1's amended theorem at concrete states. -/
theorem undo_redo_stack_discipline_witness :
    DrawingCanvas.handleUndo dcUndoSt =
      ⟨[sA], [[sB], [sA]], false, [], ToolType.marker, "#ef4444"⟩ ∧
    DrawingCanvas.handleRedo dcUndoSt =
      ⟨[sA, sB, sA], [], false, [], ToolType.marker, "#ef4444"⟩ ∧
    MeetingView.undoWhiteboard mvUndoSt =
      ⟨[], [sB, sA], false, [], ToolType.marker, "#ef4444"⟩ ∧
    MeetingView.redoWhiteboard mvUndoSt =
      ⟨[sA, sB], [], false, [], ToolType.marker, "#ef4444"⟩ := by
  obtain ⟨h1, h2, h3, h4⟩ := undo_redo_stack_discipline
  exact ⟨by rw [h1 dcUndoSt (by decide)]; rfl, by rw [h2 dcUndoSt [sA] [] rfl]; rfl,
         by rw [h3 mvUndoSt (by decide)]; rfl, by rw [h4 mvUndoSt (by decide)]; rfl⟩

/-! ### C2 -/

/-- C2 (amended): a single undo immediately followed by a redo with no
intervening commit restores the committed list exactly (deep equality of
every stroke), in both engines, PROVIDED the committed list was non-empty
at the undo.  (When committed is empty the undo is a no-op but the redo
may still replay a previously undone stroke — see the counterexample.) -/
theorem undo_redo_roundtrip :
    (∀ st : DrawingCanvas.CanvasState, st.paths ≠ [] →
      (DrawingCanvas.handleRedo (DrawingCanvas.handleUndo st)).paths = st.paths) ∧
    (∀ st : MeetingView.WhiteboardState, st.whiteboardMarkup ≠ [] →
      (MeetingView.redoWhiteboard (MeetingView.undoWhiteboard st)).whiteboardMarkup
        = st.whiteboardMarkup) := by
  constructor
  · intro st h
    unfold DrawingCanvas.handleUndo
    rw [List.getLast?_eq_getLast_of_ne_nil h]
    unfold DrawingCanvas.handleRedo
    exact List.dropLast_append_getLast h
  · intro st h
    unfold MeetingView.undoWhiteboard
    rw [List.getLast?_eq_getLast_of_ne_nil h]
    unfold MeetingView.redoWhiteboard
    simp only [List.getLast?_concat]
    exact List.dropLast_append_getLast h

/-- C2 counterexample: starting from an empty committed list with a
pending redo batch (reachable by commit-`sB`-then-undo), pressing undo
(a no-op) and then redo leaves committed `[sB]`, not the prior `[]`:
the round trip as universally stated fails when committed is empty. -/
theorem undo_redo_roundtrip_cex :
    (DrawingCanvas.handleRedo (DrawingCanvas.handleUndo dcEmptySt)).paths = [sB] ∧
    ([sB] : List MarkupPath) ≠ dcEmptySt.paths := by
  constructor
  · rfl
  · decide

/-- Witness for C2's amended theorem at concrete states. -/
theorem undo_redo_roundtrip_witness :
    (DrawingCanvas.handleRedo (DrawingCanvas.handleUndo dcUndoSt)).paths = [sA, sB] ∧
    (MeetingView.redoWhiteboard (MeetingView.undoWhiteboard mvUndoSt)).whiteboardMarkup
      = [sA] :=
  ⟨undo_redo_roundtrip.1 dcUndoSt (by decide),
   undo_redo_roundtrip.2 mvUndoSt (by decide)⟩

/-! ### C8 -/

/-- C8: the coordinate mappers are total and return the origin `(0,0)`
when the canvas surface is not yet mounted, in both engines. -/
theorem mapper_unmounted_returns_origin :
    ∀ client : Point,
      DrawingCanvas.getCoordinates none client = ⟨0, 0⟩ ∧
      MeetingView.getCanvasCoords none client = ⟨0, 0⟩ :=
  fun _ => ⟨rfl, rfl⟩

/-! ### C9 -/

/-- C9: a pointer-move during a capture (any tool, in particular the
eraser) never changes the committed stroke list or the redo buffer, and
neither does pointer-down; only the pointer-up commit can remove strokes. -/
theorem move_preserves_committed :
    ∀ (st : DrawingCanvas.CanvasState) (stw : MeetingView.WhiteboardState)
      (coords : Point),
      (DrawingCanvas.draw st coords).paths = st.paths ∧
      (DrawingCanvas.draw st coords).redoStack = st.redoStack ∧
      (DrawingCanvas.startDrawing st coords).paths = st.paths ∧
      (MeetingView.moveWhiteboardDrawing stw coords).whiteboardMarkup
        = stw.whiteboardMarkup ∧
      (MeetingView.startWhiteboardDrawing stw coords).whiteboardMarkup
        = stw.whiteboardMarkup := by
  intro st stw coords
  refine ⟨?_, ?_, rfl, ?_, rfl⟩ <;>
    first
    | (unfold DrawingCanvas.draw; split <;> rfl)
    | (unfold MeetingView.moveWhiteboardDrawing; split <;> rfl)

/-! ### C4 -/

/-- A green stroke whose single point is far from every eraser point used
below. -/
def sFar : MarkupPath := ⟨[⟨100, 100⟩], "#22c55e", 4, false⟩

/-- Image-markup state in the middle of an eraser capture over `[sA, sFar]`. -/
def dcEraseSt : DrawingCanvas.CanvasState :=
  ⟨[sA, sFar], [], true, [⟨0, 1⟩], ToolType.eraser, "#ef4444"⟩

/-- Whiteboard state in the middle of an eraser capture over `[sA, sFar]`. -/
def mvEraseSt : MeetingView.WhiteboardState :=
  ⟨[sA, sFar], [], true, [⟨0, 1⟩], ToolType.eraser, "#ef4444"⟩

/-- C4: in both engines, committing an eraser capture retains a stroke if
and only if none of its points lies strictly within the tool radius
(squared Euclidean distance, radius 15 resp. 20) of some captured eraser
point; removal is all-or-nothing per stroke and retained strokes are
unchanged. -/
theorem erase_removes_iff_within_radius :
    (∀ (st : DrawingCanvas.CanvasState) (s : MarkupPath),
      st.isDrawing = true → st.tool = ToolType.eraser →
      (s ∈ (DrawingCanvas.endDrawing st).paths ↔
        s ∈ st.paths ∧
          ¬ ∃ p ∈ s.points, ∃ q ∈ st.currentPath, distSq p q < 15 ^ 2)) ∧
    (∀ (st : MeetingView.WhiteboardState) (s : MarkupPath),
      st.isDrawingWhiteboard = true → st.whiteboardTool = ToolType.eraser →
      (s ∈ (MeetingView.endWhiteboardDrawing st).whiteboardMarkup ↔
        s ∈ st.whiteboardMarkup ∧
          ¬ ∃ p ∈ s.points, ∃ q ∈ st.currentWhiteboardPath, distSq p q < 20 ^ 2)) := by
  constructor
  · intro st s hd ht
    simp [DrawingCanvas.endDrawing, hd, ht, DrawingCanvas.isPathIntersecting,
      List.mem_filter, List.any_eq_true]
  · intro st s hd ht
    simp [MeetingView.endWhiteboardDrawing, hd, ht, MeetingView.hitByEraser,
      List.mem_filter, List.any_eq_true]

/-- Witness for C4 at a concrete eraser commit: the far stroke is kept
and the near stroke is removed, in both engines. -/
theorem erase_removes_iff_within_radius_witness :
    (sFar ∈ (DrawingCanvas.endDrawing dcEraseSt).paths ∧
      sA ∉ (DrawingCanvas.endDrawing dcEraseSt).paths) ∧
    (sFar ∈ (MeetingView.endWhiteboardDrawing mvEraseSt).whiteboardMarkup ∧
      sA ∉ (MeetingView.endWhiteboardDrawing mvEraseSt).whiteboardMarkup) := by
  obtain ⟨h1, h2⟩ := erase_removes_iff_within_radius
  refine ⟨⟨(h1 dcEraseSt sFar rfl rfl).mpr
            ⟨by simp [dcEraseSt], by norm_num [sFar, dcEraseSt, distSq]⟩, ?_⟩,
          (h2 mvEraseSt sFar rfl rfl).mpr
            ⟨by simp [mvEraseSt], by norm_num [sFar, mvEraseSt, distSq]⟩, ?_⟩
  · intro hmem
    exact ((h1 dcEraseSt sA rfl rfl).mp hmem).2 (by norm_num [sA, dcEraseSt, distSq])
  · intro hmem
    exact ((h2 mvEraseSt sA rfl rfl).mp hmem).2 (by norm_num [sA, mvEraseSt, distSq])

/-! ### C10 -/

/-- Stroke whose single point is at exact distance 15 from the origin. -/
def sEdge15 : MarkupPath := ⟨[⟨15, 0⟩], "#3b82f6", 4, false⟩

/-- Stroke whose single point is at exact distance 20 from the origin. -/
def sEdge20 : MarkupPath := ⟨[⟨20, 0⟩], "#3b82f6", 4, false⟩

/-- Image-markup eraser capture at the origin over the boundary stroke. -/
def dcEdgeSt : DrawingCanvas.CanvasState :=
  ⟨[sEdge15], [], true, [⟨0, 0⟩], ToolType.eraser, "#ef4444"⟩

/-- Whiteboard eraser capture at the origin over the boundary stroke. -/
def mvEdgeSt : MeetingView.WhiteboardState :=
  ⟨[sEdge20], [], true, [⟨0, 0⟩], ToolType.eraser, "#ef4444"⟩

/-- C10: the radius test is boundary-exclusive at all three eraser call
sites: a stroke none of whose points is strictly closer than the radius
(in particular one whose minimum distance equals the radius exactly) is
retained, and a stroke that is removed must have a point strictly within
the radius — for the image-markup eraser (radius 15), the whiteboard
eraser (radius 20), and the legacy whiteboard eraser (radius 30). -/
theorem eraser_boundary_exclusive :
    (∀ (st : DrawingCanvas.CanvasState) (s : MarkupPath),
      st.isDrawing = true → st.tool = ToolType.eraser → s ∈ st.paths →
      (∀ p ∈ s.points, ∀ q ∈ st.currentPath, 15 ^ 2 ≤ distSq p q) →
      s ∈ (DrawingCanvas.endDrawing st).paths) ∧
    (∀ (st : DrawingCanvas.CanvasState) (s : MarkupPath),
      st.isDrawing = true → st.tool = ToolType.eraser → s ∈ st.paths →
      s ∉ (DrawingCanvas.endDrawing st).paths →
      ∃ p ∈ s.points, ∃ q ∈ st.currentPath, distSq p q < 15 ^ 2) ∧
    (∀ (st : MeetingView.WhiteboardState) (s : MarkupPath),
      st.isDrawingWhiteboard = true → st.whiteboardTool = ToolType.eraser →
      s ∈ st.whiteboardMarkup →
      (∀ p ∈ s.points, ∀ q ∈ st.currentWhiteboardPath, 20 ^ 2 ≤ distSq p q) →
      s ∈ (MeetingView.endWhiteboardDrawing st).whiteboardMarkup) ∧
    (∀ (markup : List MarkupPath) (cur : List Point) (s : MarkupPath),
      s ∈ markup →
      (∀ p ∈ s.points, ∀ q ∈ cur, 30 ^ 2 ≤ distSq p q) →
      s ∈ LegacyMeetingView.eraseMarkup markup cur) ∧
    (∀ (markup : List MarkupPath) (cur : List Point) (s : MarkupPath),
      s ∈ markup → s ∉ LegacyMeetingView.eraseMarkup markup cur →
      ∃ p ∈ s.points, ∃ q ∈ cur, distSq p q < 30 ^ 2) := by
  refine ⟨?_, ?_, ?_, ?_, ?_⟩
  · intro st s hd ht hmem hfar
    simp [DrawingCanvas.endDrawing, hd, ht, DrawingCanvas.isPathIntersecting,
      List.mem_filter, List.any_eq_true]
    exact ⟨hmem, hfar⟩
  · intro st s hd ht hmem hdrop
    by_contra hno
    push_neg at hno
    apply hdrop
    simp [DrawingCanvas.endDrawing, hd, ht, DrawingCanvas.isPathIntersecting,
      List.mem_filter, List.any_eq_true]
    exact ⟨hmem, hno⟩
  · intro st s hd ht hmem hfar
    simp [MeetingView.endWhiteboardDrawing, hd, ht, MeetingView.hitByEraser,
      List.mem_filter, List.any_eq_true]
    exact ⟨hmem, hfar⟩
  · intro markup cur s hmem hfar
    simp [LegacyMeetingView.eraseMarkup, LegacyMeetingView.hitByEraser,
      List.mem_filter, List.any_eq_true]
    exact ⟨hmem, hfar⟩
  · intro markup cur s hmem hdrop
    by_contra hno
    push_neg at hno
    apply hdrop
    simp [LegacyMeetingView.eraseMarkup, LegacyMeetingView.hitByEraser,
      List.mem_filter, List.any_eq_true]
    exact ⟨hmem, hno⟩

/-! ### C5 -/

/-- Filtering by a predicate that reads only a stroke's `points` commutes
with any points-preserving re-attribution of the strokes. -/
theorem filter_map_points_eq (f : MarkupPath → MarkupPath)
    (hf : ∀ s, (f s).points = s.points) (g : List Point → Bool) :
    ∀ strokes : List MarkupPath,
      ((strokes.map f).filter fun p => !(g p.points))
        = (strokes.filter fun p => !(g p.points)).map f := by
  intro strokes
  induction strokes with
  | nil => rfl
  | cons s t ih =>
    simp only [List.map_cons, List.filter_cons, hf s]
    cases hg : g s.points <;> simp [hg, ih]

/-- C5 (amended): each eraser call site decides removal from the stroke's
points alone — rewriting every stroke's color, width or highlighter flag
(any points-preserving map) commutes with erasure at all three call
sites — but the tool-fixed radius constant is NOT shared across the
engine's call sites (15, 20 and 30 units; see the counterexample). -/
theorem eraser_width_independent :
    ∀ (f : MarkupPath → MarkupPath), (∀ s, (f s).points = s.points) →
    ∀ (strokes : List MarkupPath) (cur : List Point),
      ((strokes.map f).filter fun p => !(DrawingCanvas.isPathIntersecting p.points cur))
        = (strokes.filter fun p => !(DrawingCanvas.isPathIntersecting p.points cur)).map f ∧
      ((strokes.map f).filter fun p => !(MeetingView.hitByEraser p cur))
        = (strokes.filter fun p => !(MeetingView.hitByEraser p cur)).map f ∧
      LegacyMeetingView.eraseMarkup (strokes.map f) cur
        = (LegacyMeetingView.eraseMarkup strokes cur).map f := by
  intro f hf strokes cur
  refine ⟨filter_map_points_eq f hf
    (fun pts => DrawingCanvas.isPathIntersecting pts cur) strokes, ?_, ?_⟩
  · exact filter_map_points_eq f hf
      (fun pts => pts.any fun pt1 => cur.any fun pt2 => decide (distSq pt1 pt2 < 20 ^ 2))
      strokes
  · exact filter_map_points_eq f hf
      (fun pts => pts.any fun pt1 => cur.any fun pt2 => decide (distSq pt1 pt2 < 30 ^ 2))
      strokes

/-- A points-preserving restyling: widen every stroke by one unit. -/
def widen : MarkupPath → MarkupPath := fun s => { s with width := s.width + 1 }

/-- Witness for C5's amended theorem at a concrete restyling map,
stroke list and eraser path. -/
theorem eraser_width_independent_witness :
    (([sA, sFar].map widen).filter
        fun p => !(DrawingCanvas.isPathIntersecting p.points [⟨0, 1⟩]))
      = ([sA, sFar].filter
          fun p => !(DrawingCanvas.isPathIntersecting p.points [⟨0, 1⟩])).map widen ∧
    (([sA, sFar].map widen).filter fun p => !(MeetingView.hitByEraser p [⟨0, 1⟩]))
      = ([sA, sFar].filter fun p => !(MeetingView.hitByEraser p [⟨0, 1⟩])).map widen ∧
    LegacyMeetingView.eraseMarkup ([sA, sFar].map widen) [⟨0, 1⟩]
      = (LegacyMeetingView.eraseMarkup [sA, sFar] [⟨0, 1⟩]).map widen :=
  eraser_width_independent widen (fun _ => rfl) [sA, sFar] [⟨0, 1⟩]

/-- Stroke at exact distance 17 from the origin. -/
def s17 : MarkupPath := ⟨[⟨17, 0⟩], "#22c55e", 4, false⟩

/-- Stroke at exact distance 25 from the origin. -/
def s25 : MarkupPath := ⟨[⟨25, 0⟩], "#22c55e", 4, false⟩

/-- Image-markup eraser capture at the origin over `[s17]`. -/
def dcErase17 : DrawingCanvas.CanvasState :=
  ⟨[s17], [], true, [⟨0, 0⟩], ToolType.eraser, "#ef4444"⟩

/-- Whiteboard eraser capture at the origin over `[s17]`. -/
def mvErase17 : MeetingView.WhiteboardState :=
  ⟨[s17], [], true, [⟨0, 0⟩], ToolType.eraser, "#ef4444"⟩

/-- Whiteboard eraser capture at the origin over `[s25]`. -/
def mvErase25 : MeetingView.WhiteboardState :=
  ⟨[s25], [], true, [⟨0, 0⟩], ToolType.eraser, "#ef4444"⟩

/-- C5 counterexample: identical committed strokes and identical eraser
paths are resolved differently at different call sites — a stroke at
distance 17 survives the image-markup eraser (radius 15) but is removed
by the whiteboard eraser (radius 20), and a stroke at distance 25
survives the whiteboard eraser but is removed by the legacy whiteboard
eraser (radius 30): the radius is not one shared engine constant. -/
theorem eraser_width_independent_cex :
    (DrawingCanvas.endDrawing dcErase17).paths = [s17] ∧
    (MeetingView.endWhiteboardDrawing mvErase17).whiteboardMarkup = [] ∧
    (MeetingView.endWhiteboardDrawing mvErase25).whiteboardMarkup = [s25] ∧
    LegacyMeetingView.eraseMarkup [s25] [⟨0, 0⟩] = [] := by
  refine ⟨?_, ?_, ?_, ?_⟩ <;>
    norm_num [DrawingCanvas.endDrawing, MeetingView.endWhiteboardDrawing,
      LegacyMeetingView.eraseMarkup, dcErase17, mvErase17, mvErase25,
      DrawingCanvas.isPathIntersecting, MeetingView.hitByEraser,
      LegacyMeetingView.hitByEraser, distSq, List.filter, s17, s25]

/-! ### C6 -/

/-- C6 (amended): the whiteboard mapper is scale-correct — for every
mounted canvas it multiplies the offset from the bounding rectangle by
`logicalWidth / displayedWidth` on x and `logicalHeight / displayedHeight`
on y (the two factors are independent, so non-square scale is handled),
and for a canvas displayed at half its logical resolution the visual
center maps exactly to the logical center.  The image-markup mapper
applies no scale factor (see the counterexample). -/
theorem coordinate_mapping_scale :
    (∀ (c : CanvasElem) (client : Point),
      MeetingView.getCanvasCoords (some c) client =
        ⟨(client.x - c.rectLeft) * (c.width / c.rectWidth),
         (client.y - c.rectTop) * (c.height / c.rectHeight)⟩) ∧
    (∀ c : CanvasElem,
      c.rectWidth = c.width / 2 → c.rectHeight = c.height / 2 →
      c.rectWidth ≠ 0 → c.rectHeight ≠ 0 →
      MeetingView.getCanvasCoords (some c)
          ⟨c.rectLeft + c.rectWidth / 2, c.rectTop + c.rectHeight / 2⟩ =
        ⟨c.width / 2, c.height / 2⟩) := by
  constructor
  · intro c client; rfl
  · intro c hw hh hw0 hh0
    have hwid : c.width ≠ 0 := fun h0 => hw0 (by rw [hw, h0]; norm_num)
    have hhei : c.height ≠ 0 := fun h0 => hh0 (by rw [hh, h0]; norm_num)
    simp only [MeetingView.getCanvasCoords, Point.mk.injEq]
    rw [hw, hh]
    constructor <;> (field_simp; ring)

/-- A whiteboard canvas of logical size 200×120 displayed at 100×60. -/
def mvCanvasHalf : CanvasElem := ⟨200, 120, 10, 20, 100, 60⟩

/-- Witness for C6's amended theorem: on the half-resolution canvas the
screen point at the visual center, `(60, 50)`, maps to the logical
center `(100, 60)`. -/
theorem coordinate_mapping_scale_witness :
    MeetingView.getCanvasCoords (some mvCanvasHalf) ⟨60, 50⟩ = ⟨100, 60⟩ := by
  have h := coordinate_mapping_scale.2 mvCanvasHalf
    (by norm_num [mvCanvasHalf]) (by norm_num [mvCanvasHalf])
    (by norm_num [mvCanvasHalf]) (by norm_num [mvCanvasHalf])
  have e1 : (⟨60, 50⟩ : Point) =
      ⟨mvCanvasHalf.rectLeft + mvCanvasHalf.rectWidth / 2,
       mvCanvasHalf.rectTop + mvCanvasHalf.rectHeight / 2⟩ := by
    norm_num [mvCanvasHalf]
  have e2 : (⟨100, 60⟩ : Point) =
      ⟨mvCanvasHalf.width / 2, mvCanvasHalf.height / 2⟩ := by
    norm_num [mvCanvasHalf]
  rw [e1, e2]
  exact h

/-- An image-markup canvas of logical size 200×100 displayed at 100×100. -/
def dcCanvasHalf : CanvasElem := ⟨200, 100, 0, 0, 100, 100⟩

/-- C6 counterexample: on a canvas whose displayed width is half its
logical width, the image-markup mapper sends the visual center `(50,50)`
to `(50,50)` — not to the scale-corrected point
`(offsetX · logicalWidth/displayedWidth, offsetY · logicalHeight/displayedHeight)
= (100, 50)` that the claim requires of every mapper. -/
theorem coordinate_mapping_scale_cex :
    DrawingCanvas.getCoordinates (some dcCanvasHalf) ⟨50, 50⟩ = ⟨50, 50⟩ ∧
    (⟨50, 50⟩ : Point) ≠
      ⟨(50 - dcCanvasHalf.rectLeft) * (dcCanvasHalf.width / dcCanvasHalf.rectWidth),
       (50 - dcCanvasHalf.rectTop) * (dcCanvasHalf.height / dcCanvasHalf.rectHeight)⟩ := by
  constructor
  · norm_num [DrawingCanvas.getCoordinates, dcCanvasHalf]
  · norm_num [dcCanvasHalf]

/-- Stroke whose single point is at exact distance 30 from the origin. -/
def sEdge30 : MarkupPath := ⟨[⟨30, 0⟩], "#3b82f6", 4, false⟩

/-- Witness for C10: strokes at exact distance 15 (resp. 20, 30) from the
single eraser point survive the eraser commit at each of the three call
sites, and a removed stroke yields a strictly-closer point (shown for the
radius-15 and radius-30 sites). -/
theorem eraser_boundary_exclusive_witness :
    sEdge15 ∈ (DrawingCanvas.endDrawing dcEdgeSt).paths ∧
    sEdge20 ∈ (MeetingView.endWhiteboardDrawing mvEdgeSt).whiteboardMarkup ∧
    sEdge30 ∈ LegacyMeetingView.eraseMarkup [sEdge30] [⟨0, 0⟩] ∧
    (∃ p ∈ sA.points, ∃ q ∈ dcEraseSt.currentPath, distSq p q < 15 ^ 2) ∧
    (∃ p ∈ s25.points, ∃ q ∈ [(⟨0, 0⟩ : Point)], distSq p q < 30 ^ 2) := by
  obtain ⟨h1, h2, h3, h4, h5⟩ := eraser_boundary_exclusive
  refine ⟨h1 dcEdgeSt sEdge15 rfl rfl (by simp [dcEdgeSt])
            (by norm_num [sEdge15, dcEdgeSt, distSq]),
          h3 mvEdgeSt sEdge20 rfl rfl (by simp [mvEdgeSt])
            (by norm_num [sEdge20, mvEdgeSt, distSq]),
          h4 [sEdge30] [⟨0, 0⟩] sEdge30 (by simp)
            (by norm_num [sEdge30, distSq]),
          h2 dcEraseSt sA rfl rfl (by simp [dcEraseSt]) ?_,
          h5 [s25] [⟨0, 0⟩] s25 (by simp) ?_⟩
  · intro hmem
    have : (DrawingCanvas.endDrawing dcEraseSt).paths = [sFar] := by
      norm_num [DrawingCanvas.endDrawing, dcEraseSt, DrawingCanvas.isPathIntersecting,
        distSq, List.filter, sA, sFar]
    rw [this] at hmem
    simp [sA, sFar] at hmem
  · intro hmem
    have : LegacyMeetingView.eraseMarkup [s25] [⟨0, 0⟩] = [] := by
      norm_num [LegacyMeetingView.eraseMarkup, LegacyMeetingView.hitByEraser,
        distSq, List.filter, s25]
    rw [this] at hmem
    simp at hmem

/-! ### C3 -/

/-- A pointer-move leaves every field except `currentPath` unchanged. -/
theorem draw_fields (st : DrawingCanvas.CanvasState) (p : Point) :
    (DrawingCanvas.draw st p).isDrawing = st.isDrawing ∧
    (DrawingCanvas.draw st p).paths = st.paths ∧
    (DrawingCanvas.draw st p).redoStack = st.redoStack ∧
    (DrawingCanvas.draw st p).tool = st.tool ∧
    (DrawingCanvas.draw st p).color = st.color := by
  unfold DrawingCanvas.draw
  split <;> exact ⟨rfl, rfl, rfl, rfl, rfl⟩

/-- While `isDrawing` holds, a run of pointer-moves only appends the moved
points to `currentPath`. -/
theorem foldl_draw_of_isDrawing (rest : List Point) (st : DrawingCanvas.CanvasState)
    (hd : st.isDrawing = true) :
    rest.foldl DrawingCanvas.draw st = { st with currentPath := st.currentPath ++ rest } := by
  induction rest generalizing st with
  | nil => simp
  | cons p ps ih =>
    simp only [List.foldl_cons, DrawingCanvas.draw, hd, if_true]
    rw [ih { paths := st.paths, redoStack := st.redoStack, isDrawing := true,
             currentPath := st.currentPath ++ [p], tool := st.tool,
             color := st.color } rfl]
    simp

/-- A full gesture is `endDrawing` applied to the capture-completed state. -/
theorem applyGesture_state (st : DrawingCanvas.CanvasState) (t : ToolType)
    (c : String) (p0 : Point) (rest : List Point) :
    DrawingCanvas.applyGesture st t c p0 rest =
      DrawingCanvas.endDrawing
        { paths := st.paths, redoStack := st.redoStack, isDrawing := true,
          currentPath := p0 :: rest, tool := t, color := c } := by
  unfold DrawingCanvas.applyGesture
  rw [foldl_draw_of_isDrawing rest _ rfl]
  rfl

/-- Every completed gesture — draw or erase, whether or not the erase
removes anything — leaves `redoStack` empty. -/
theorem applyGesture_redoStack (st : DrawingCanvas.CanvasState) (t : ToolType)
    (c : String) (p0 : Point) (rest : List Point) :
    (DrawingCanvas.applyGesture st t c p0 rest).redoStack = [] := by
  rw [applyGesture_state]
  unfold DrawingCanvas.endDrawing
  split
  · simp_all
  · split <;> rfl

/-- Any operation other than an undo preserves an empty `redoStack`. -/
theorem applyOp_redoStack_empty (st : DrawingCanvas.CanvasState)
    (op : DrawingCanvas.Op) (hre : st.redoStack = [])
    (hop : op ≠ DrawingCanvas.Op.undo) :
    (DrawingCanvas.applyOp st op).redoStack = [] := by
  cases op with
  | gesture t c p0 rest => exact applyGesture_redoStack st t c p0 rest
  | undo => exact absurd rfl hop
  | redo => simp [DrawingCanvas.applyOp, DrawingCanvas.handleRedo, hre]

/-- Any undo-free run of operations preserves an empty `redoStack`. -/
theorem applyOps_redoStack_empty (l : List DrawingCanvas.Op)
    (st : DrawingCanvas.CanvasState) (hre : st.redoStack = [])
    (hl : ∀ op ∈ l, op ≠ DrawingCanvas.Op.undo) :
    (DrawingCanvas.applyOps st l).redoStack = [] := by
  induction l generalizing st with
  | nil => exact hre
  | cons op rest ih =>
    exact ih (DrawingCanvas.applyOp st op)
      (applyOp_redoStack_empty st op hre (hl op (List.mem_cons_self op rest)))
      (fun o ho => hl o (List.mem_cons_of_mem op ho))

/-- C3: every commit — a draw commit or an eraser commit, including one
that removes no stroke — leaves `redoBuffer` empty in both engines; and
along any operation sequence containing a commit with no later undo, the
final `redoBuffer` is empty (so a non-empty `redoBuffer` means no commit
has occurred since the last undo). -/
theorem commit_clears_redo :
    (∀ st : DrawingCanvas.CanvasState, st.isDrawing = true →
      (DrawingCanvas.endDrawing st).redoStack = []) ∧
    (∀ st : MeetingView.WhiteboardState, st.isDrawingWhiteboard = true →
      (MeetingView.endWhiteboardDrawing st).redoStack = []) ∧
    (∀ (st : DrawingCanvas.CanvasState) (l1 : List DrawingCanvas.Op)
        (t : ToolType) (c : String) (p0 : Point) (rest : List Point)
        (l2 : List DrawingCanvas.Op),
      (∀ op ∈ l2, op ≠ DrawingCanvas.Op.undo) →
      (DrawingCanvas.applyOps st
          (l1 ++ DrawingCanvas.Op.gesture t c p0 rest :: l2)).redoStack = []) := by
  refine ⟨?_, ?_, ?_⟩
  · intro st hd
    unfold DrawingCanvas.endDrawing
    simp only [hd]
    split
    · simp_all
    · split <;> rfl
  · intro st hd
    unfold MeetingView.endWhiteboardDrawing
    simp only [hd]
    split
    · simp_all
    · split <;> rfl
  · intro st l1 t c p0 rest l2 h2
    unfold DrawingCanvas.applyOps
    rw [List.foldl_append]
    simp only [List.foldl_cons]
    exact applyOps_redoStack_empty l2 _ (applyGesture_redoStack _ _ _ _ _) h2

/-- Witness for C3: a concrete eraser commit that removes nothing clears
a non-empty redo buffer in each engine, and a concrete undo–commit–redo
run ends with an empty redo buffer. -/
theorem commit_clears_redo_witness :
    (DrawingCanvas.endDrawing
      ⟨[sA], [[sB]], true, [⟨500, 500⟩], ToolType.eraser, "#ef4444"⟩).redoStack = [] ∧
    (MeetingView.endWhiteboardDrawing
      ⟨[sA], [sB], true, [⟨500, 500⟩], ToolType.eraser, "#ef4444"⟩).redoStack = [] ∧
    (DrawingCanvas.applyOps dcUndoSt
        ([DrawingCanvas.Op.undo] ++
          DrawingCanvas.Op.gesture ToolType.eraser "#ef4444" ⟨500, 500⟩ [] ::
            [DrawingCanvas.Op.redo])).redoStack = [] := by
  obtain ⟨h1, h2, h3⟩ := commit_clears_redo
  exact ⟨h1 _ rfl, h2 _ rfl,
    h3 dcUndoSt [DrawingCanvas.Op.undo] ToolType.eraser "#ef4444" ⟨500, 500⟩ []
      [DrawingCanvas.Op.redo] (by decide)⟩

/-! ### C7 -/

/-- A non-eraser gesture grows the committed list by exactly one stroke. -/
theorem applyGesture_paths_len (st : DrawingCanvas.CanvasState) (t : ToolType)
    (c : String) (p0 : Point) (rest : List Point) (ht : t ≠ ToolType.eraser) :
    (DrawingCanvas.applyGesture st t c p0 rest).paths.length = st.paths.length + 1 := by
  rw [applyGesture_state]
  unfold DrawingCanvas.endDrawing
  simp [ht]

/-- An undo shrinks the committed list by one (and is a no-op on empty). -/
theorem handleUndo_paths_len (st : DrawingCanvas.CanvasState) :
    (DrawingCanvas.handleUndo st).paths.length = st.paths.length - 1 := by
  unfold DrawingCanvas.handleUndo
  cases h : st.paths.getLast? with
  | none =>
    have : st.paths = [] := List.getLast?_eq_none_iff.mp h
    simp [this]
  | some a => simp [List.length_dropLast]

/-- Undoing `n` times shrinks the committed list by `n`. -/
theorem undoN_paths_len (n : ℕ) (st : DrawingCanvas.CanvasState) :
    (DrawingCanvas.undoN n st).paths.length = st.paths.length - n := by
  induction n generalizing st with
  | zero => rfl
  | succ n ih =>
    show (DrawingCanvas.undoN n (DrawingCanvas.handleUndo st)).paths.length = _
    rw [ih, handleUndo_paths_len]
    omega

/-- A run of non-eraser gestures grows the committed list by its length. -/
theorem applyGestures_paths_len (gs : List DrawingCanvas.Gesture)
    (st : DrawingCanvas.CanvasState)
    (h : ∀ g ∈ gs, g.tool ≠ ToolType.eraser) :
    (DrawingCanvas.applyGestures st gs).paths.length = st.paths.length + gs.length := by
  induction gs generalizing st with
  | nil => rfl
  | cons g rest ih =>
    show (DrawingCanvas.applyGestures (DrawingCanvas.applyGesture st g.tool g.color g.p0 g.rest) rest).paths.length = _
    rw [ih _ (fun g' hg' => h g' (List.mem_cons_of_mem g hg')),
      applyGesture_paths_len st g.tool g.color g.p0 g.rest
        (h g (List.mem_cons_self g rest))]
    simp only [List.length_cons]
    omega

/-- C7: starting from the empty history, any sequence of N draw commits
followed by N undos leaves the committed stroke list empty again. -/
theorem commits_then_undos_empty :
    ∀ gs : List DrawingCanvas.Gesture,
      (∀ g ∈ gs, g.tool ≠ ToolType.eraser) →
      (DrawingCanvas.undoN gs.length
        (DrawingCanvas.applyGestures DrawingCanvas.initState gs)).paths = [] := by
  intro gs h
  have h1 := applyGestures_paths_len gs DrawingCanvas.initState h
  have h2 := undoN_paths_len gs.length (DrawingCanvas.applyGestures DrawingCanvas.initState gs)
  refine List.eq_nil_of_length_eq_zero ?_
  rw [h2, h1]
  simp [DrawingCanvas.initState]

/-- Concrete gestures for the C7 witness: one marker stroke, one
highlighter stroke. -/
def gsW : List DrawingCanvas.Gesture :=
  [⟨ToolType.marker, "#ef4444", ⟨0, 0⟩, [⟨1, 1⟩]⟩,
   ⟨ToolType.highlighter, "#facc15", ⟨2, 2⟩, []⟩]

/-- Witness for C7: two draw commits followed by two undos leave the
committed list empty. -/
theorem commits_then_undos_empty_witness :
    (DrawingCanvas.undoN gsW.length
      (DrawingCanvas.applyGestures DrawingCanvas.initState gsW)).paths = [] :=
  commits_then_undos_empty gsW (by decide)
